import Mathlib

/-!
# Verification of the portlight event-loop core

Shallow embedding of the event-loop, task-dispatch, window, and timer logic
of the `portlight` windowing library, together with proofs of the behavioral
properties its specification states.

Conventions:
* machine integers are modelled as `Nat`/`Int`;
* `f64` coordinates are modelled as `ℚ` where exact arithmetic matters;
* fallible Rust code returns `Except`/`Option`;
* a Rust panic is modelled as `none`/an explicit outcome constructor;
* interior-mutable cells become explicit state passing.
-/

namespace Portlight

/-! ## `src/window.rs`: `Bitmap` -/

/-- `Bitmap<'a>` from `src/window.rs`: a borrowed pixel slice with dimensions.
Pixels (`u32`) are modelled as `Nat`. -/
structure Bitmap where
  data : List Nat
  width : Nat
  height : Nat
deriving Repr, DecidableEq

namespace Bitmap

/-- `Bitmap::new` from `src/window.rs`. The Rust constructor asserts
`width * height == data.len()` ("invalid bitmap dimensions") and panics
otherwise; the panic is modelled as `none`. -/
def new (data : List Nat) (width height : Nat) : Option Bitmap :=
  if width * height = data.length then
    some { data := data, width := width, height := height }
  else
    none

end Bitmap

/-! ## `src/window.rs`: geometry and event types

`f64` coordinates are modelled as `ℚ`. -/

/-- `Point` from `src/window.rs`. -/
structure QPoint where
  x : ℚ
  y : ℚ
deriving DecidableEq, Repr

/-- `Point::scale`. -/
def QPoint.scale (p : QPoint) (s : ℚ) : QPoint :=
  ⟨p.x * s, p.y * s⟩

/-- `Rect` from `src/window.rs`. -/
structure QRect where
  x : ℚ
  y : ℚ
  width : ℚ
  height : ℚ
deriving DecidableEq, Repr

/-- `Rect::scale`. -/
def QRect.scale (r : QRect) (s : ℚ) : QRect :=
  ⟨r.x * s, r.y * s, r.width * s, r.height * s⟩

/-- `MouseButton` from `src/window.rs`. -/
inductive MouseButton where
  | left
  | middle
  | right
  | back
  | forward
deriving DecidableEq, Repr

/-- `WindowEvent` from `src/window.rs`. -/
inductive WindowEvent where
  | expose (rects : List QRect)
  | frame
  | close
  | gainFocus
  | loseFocus
  | mouseEnter
  | mouseExit
  | mouseMove (point : QPoint)
  | mouseDown (button : MouseButton)
  | mouseUp (button : MouseButton)
  | scroll (delta : QPoint)
deriving DecidableEq, Repr

/-! ## `src/task.rs`: `Key`, `Response`, `Context`, `TaskHandle` -/

/-- `Key(pub usize)` from `src/task.rs`. -/
structure Key where
  key : Nat
deriving DecidableEq, Repr

/-- `Response` from `src/task.rs`: exactly `Capture` or `Ignore`. -/
inductive Response where
  | capture
  | ignore
deriving DecidableEq, Repr

/-- `Context<'a>` from `src/task.rs`: pairs the event loop handle with the
strong task reference being dispatched to. `ε` stands for the `EventLoop`
handle and `τ` for the task value behind the `Rc<RefCell<..>>`. -/
structure Context (ε τ : Type) where
  event_loop : ε
  task : τ

/-- `Context::new` from `src/task.rs`. -/
def Context.new (event_loop : ε) (task : τ) : Context ε τ :=
  ⟨event_loop, task⟩

/-- `BorrowMutError` from `src/task.rs`. -/
inductive BorrowMutError where
  | borrowMutError
deriving DecidableEq, Repr

/-- `TaskHandle::with` from `src/task.rs`. The handle's `RefCell` borrow flag
is the explicit argument `borrowed`; the callback `f` receives the task value
and a freshly constructed `Context` and returns the mutated task together
with its result. A `none` result models the
`panic ("already mutably borrowed")` branch. -/
def TaskHandle.with (event_loop : ε) (borrowed : Bool) (task : τ)
    (f : τ → Context ε τ → τ × ρ) : Option (τ × ρ) :=
  if borrowed then
    none
  else
    some (f task (Context.new event_loop task))

/-- `TaskHandle::try_with` from `src/task.rs`: same borrow discipline, but the
conflict is reported as `Err(BorrowMutError)`. -/
def TaskHandle.tryWith (event_loop : ε) (borrowed : Bool) (task : τ)
    (f : τ → Context ε τ → τ × ρ) : Except BorrowMutError (τ × ρ) :=
  if borrowed then
    .error .borrowMutError
  else
    .ok (f task (Context.new event_loop task))

/-! ## Task resolution at dispatch time

`WindowState::handle_event` (`src/backend/win32/window.rs`) and
`EventLoopState::handle_event` (`src/backend/x11/event_loop.rs`) both read:

    let task_ref = self.handler.upgrade()?;
    let mut handler = task_ref.try_borrow_mut().ok()?;
    let cx = Context::new(&self.event_loop, &task_ref);
    Some(handler.event(&cx, self.key, Event::Window(event)))

The state of the weak reference plus the `RefCell` borrow flag is modelled by
`TaskSlot`. -/

/-- The observable state of a resource's stored weak task reference:
the `TaskHandle` has been dropped (`upgrade` fails), the task is currently
exclusively borrowed (`try_borrow_mut` fails), or the task is available. -/
inductive TaskSlot (τ : Type) where
  | dead
  | borrowed (t : τ)
  | free (t : τ)
deriving DecidableEq, Repr

/-- `handle_event`: resolve the task, borrow it, build a `Context`, invoke the
handler. Returns the handler's `Response` (or `none` when resolution fails)
together with the task slot after dispatch. `h` is the task's
`Task::event` implementation. -/
def handleEvent (h : τ → Key → WindowEvent → τ × Response)
    (slot : TaskSlot τ) (key : Key) (event : WindowEvent) :
    Option Response × TaskSlot τ :=
  match slot with
  | .dead => (none, .dead)
  | .borrowed t => (none, .borrowed t)
  | .free t =>
      let (t2, r) := h t key event
      (some r, .free t2)

/-- Repeated delivery attempts through `handle_event`, threading the slot. -/
def deliverAll (h : τ → Key → WindowEvent → τ × Response)
    (slot : TaskSlot τ) (key : Key) :
    List WindowEvent → List (Option Response) × TaskSlot τ
  | [] => ([], slot)
  | ev :: rest =>
      let (r, slot2) := handleEvent h slot key ev
      let (rs, slot3) := deliverAll h slot2 key rest
      (r :: rs, slot3)

/-! ## `src/backend/x11/event_loop.rs`: run state, `RunGuard`, `exit`

The X11 backend keeps a three-valued `RunState` in a `Cell`:

    pub enum RunState { Stopped, Running, Exiting }

`RunGuard::new` errors with `AlreadyRunning` when the state is `Running` and
otherwise sets it to `Running`; dropping the guard sets it back to `Stopped`.
`exit` sets the state to `Exiting` unconditionally.  `poll` additionally
rejects any entry state other than `Stopped` before taking the guard. -/

/-- `RunState` from `src/backend/x11/event_loop.rs`. -/
inductive RunState where
  | stopped
  | running
  | exiting
deriving DecidableEq, Repr

/-- The `Error` variants relevant to the event loop driver
(`Error::AlreadyRunning` from `src/error.rs` usage sites). -/
inductive LoopError where
  | alreadyRunning
deriving DecidableEq, Repr

/-- `EventLoopState::exit` from `src/backend/x11/event_loop.rs`:
`self.run_state.set(RunState::Exiting)`, with no check of the current
state. -/
def exitX (_ : RunState) : RunState :=
  RunState.exiting

/-- `RunGuard::new` from `src/backend/x11/event_loop.rs`. -/
def runGuardNewX (st : RunState) : Except LoopError RunState :=
  if st = RunState.running then
    .error .alreadyRunning
  else
    .ok RunState.running

/-- `RunGuard::drop` from `src/backend/x11/event_loop.rs`:
`self.run_state.set(RunState::Stopped)`. -/
def runGuardDropX (_ : RunState) : RunState :=
  RunState.stopped

/-- The effect of one dispatched callback on the loop's run state: either it
does not touch the run state, or it calls `EventLoop::exit`. -/
inductive CbEffect where
  | keep
  | callExit
deriving DecidableEq, Repr

/-- Apply one callback's effect to the run state. -/
def applyEffect (st : RunState) : CbEffect → RunState
  | .keep => st
  | .callExit => exitX st

/-- The body of `EventLoopState::run`'s loop from
`src/backend/x11/event_loop.rs`: callbacks are dispatched until the run
state is observed to be `Exiting` (both `run`'s loop and `drain_events`
check `run_state == Exiting` and break). -/
def runLoopX (st : RunState) : List CbEffect → RunState
  | [] => st
  | c :: rest =>
      if st = RunState.exiting then
        st
      else
        runLoopX (applyEffect st c) rest

/-- `EventLoopState::run` from `src/backend/x11/event_loop.rs`: acquire the
`RunGuard`, dispatch callbacks, drop the guard.  The callbacks observed during
the run are abstracted as their run-state effects `cbs`. -/
def runX (st : RunState) (cbs : List CbEffect) : Except LoopError RunState :=
  match runGuardNewX st with
  | .error e => .error e
  | .ok st1 => .ok (runGuardDropX (runLoopX st1 cbs))

/-- `EventLoopState::poll` from `src/backend/x11/event_loop.rs`: first the
explicit entry check

    if self.run_state.get() != RunState::Stopped {
        return Err(Error::AlreadyRunning);
    }

then the same guard/dispatch/drop sequence as `run`. -/
def pollX (st : RunState) (cbs : List CbEffect) : Except LoopError RunState :=
  if st ≠ RunState.stopped then
    .error .alreadyRunning
  else
    match runGuardNewX st with
    | .error e => .error e
    | .ok st1 => .ok (runGuardDropX (runLoopX st1 cbs))

/-! ## `src/backend/win32/event_loop.rs`: running flag, panic cell, messages

The Win32 backend keeps `running : Cell<bool>` and
`panic : Cell<Option<Box<dyn Any + Send>>>`, posts `WM_QUIT` via
`PostQuitMessage` to stop the pump, and re-raises a stored panic from
`run`/`poll`.  The panic payload type is abstracted as `π`. -/

/-- The observable driver state of the Win32 `EventLoopState`:
the `running` cell, the panic cell, and whether a quit message has been
posted to the thread's message queue. -/
structure W32State (π : Type) where
  running : Bool
  panicCell : Option π
  quitPosted : Bool
deriving DecidableEq, Repr

/-- `PostQuitMessage(0)`. -/
def postQuit (s : W32State π) : W32State π :=
  { s with quitPosted := true }

/-- `EventLoopState::exit` from `src/backend/win32/event_loop.rs`:

    if self.running.get() { unsafe { PostQuitMessage(0) }; }
-/
def exitW (s : W32State π) : W32State π :=
  if s.running then postQuit s else s

/-- `EventLoopState::propagate_panic` from
`src/backend/win32/event_loop.rs`:

    if self.running.get() {
        self.panic.set(Some(panic));
        unsafe { PostQuitMessage(0) };
    } else {
        std::process::abort();
    }

`none` models the process abort. -/
def propagatePanic (s : W32State π) (p : π) : Option (W32State π) :=
  if s.running then
    some (postQuit { s with panicCell := some p })
  else
    none

/-- One message dispatched by the pump: an ordinary event whose callback
returns normally, or one whose callback panics with payload `p` (caught by
`catch_unwind` at the native boundary and routed to `propagate_panic`). -/
inductive W32Msg (π : Type) where
  | event
  | panicky (p : π)
deriving DecidableEq, Repr

/-- Dispatch of one message at a native callback boundary
(`wnd_proc`/`message_wnd_proc`): a normal callback leaves the driver state
unchanged (as far as this model observes); a panicking callback is caught and
handed to `propagate_panic`.  `none` models a process abort. -/
def dispatchMsg (s : W32State π) : W32Msg π → Option (W32State π)
  | .event => some s
  | .panicky p => propagatePanic s p

/-- The `GetMessageW`/`DispatchMessageW` pump of `EventLoopState::run` (and
the `PeekMessageW` pump of `poll`): stop when the posted `WM_QUIT` is
retrieved (consuming it), otherwise dispatch the next message.  Returns the
driver state and the messages left unprocessed, or `none` if a dispatch
aborted the process. -/
def pumpW : W32State π → List (W32Msg π) → Option (W32State π × List (W32Msg π))
  | s, [] =>
      if s.quitPosted then
        some ({ s with quitPosted := false }, [])
      else
        some (s, [])
  | s, m :: rest =>
      if s.quitPosted then
        some ({ s with quitPosted := false }, m :: rest)
      else
        match dispatchMsg s m with
        | some s1 => pumpW s1 rest
        | none => none

/-- The result of a `run`/`poll` call. -/
inductive RunResult (π : Type) where
  | ok
  | alreadyRunning
  | panicked (p : π)
  | aborted
deriving DecidableEq, Repr

/-- `EventLoopState::run` (and structurally `poll`) from
`src/backend/win32/event_loop.rs`: `RunGuard::new` errors with
`AlreadyRunning` if `running` is set and otherwise sets it; the pump runs;
the guard drop clears `running` unconditionally; finally `panic.take()` is
re-raised if present.  Returns the call result, the final driver state, and
the unprocessed messages. -/
def runW (s : W32State π) (msgs : List (W32Msg π)) :
    RunResult π × W32State π × List (W32Msg π) :=
  if s.running then
    (.alreadyRunning, s, msgs)
  else
    match pumpW { s with running := true } msgs with
    | none => (.aborted, { s with running := true }, [])
    | some (s1, rest) =>
        let s2 := { s1 with running := false }
        match s2.panicCell with
        | some p => (.panicked p, { s2 with panicCell := none }, rest)
        | none => (.ok, s2, rest)

end Portlight

/-- C10: `Bitmap::new(data, width, height)` panics iff
`width * height ≠ data.len()`; on success the bitmap reports exactly the
given data, width and height. -/
theorem bitmap_new_checks_dimensions (data : List Nat) (w h : Nat) :
    (Portlight.Bitmap.new data w h = none ↔ w * h ≠ data.length) ∧
    (∀ b, Portlight.Bitmap.new data w h = some b →
      b.data = data ∧ b.width = w ∧ b.height = h) := by
  constructor
  · unfold Portlight.Bitmap.new
    split <;> simp_all
  · intro b hb
    unfold Portlight.Bitmap.new at hb
    split at hb
    · cases hb; exact ⟨rfl, rfl, rfl⟩
    · cases hb

/-- Witness for C10 at concrete inputs: a 5-element slice with claimed
dimensions 2×3 panics, and a well-formed 2×3 bitmap keeps its fields. -/
theorem bitmap_new_checks_dimensions_witness :
    Portlight.Bitmap.new [1, 2, 3, 4, 5] 2 3 = none ∧
    ((⟨[1, 2, 3, 4, 5, 6], 2, 3⟩ : Portlight.Bitmap).data = [1, 2, 3, 4, 5, 6] ∧
      (⟨[1, 2, 3, 4, 5, 6], 2, 3⟩ : Portlight.Bitmap).width = 2 ∧
      (⟨[1, 2, 3, 4, 5, 6], 2, 3⟩ : Portlight.Bitmap).height = 3) :=
  ⟨(bitmap_new_checks_dimensions [1, 2, 3, 4, 5] 2 3).1.mpr (by decide),
   (bitmap_new_checks_dimensions [1, 2, 3, 4, 5, 6] 2 3).2
     ⟨[1, 2, 3, 4, 5, 6], 2, 3⟩ (by decide)⟩

/-- C7: if the task is not mutably borrowed, `with` and `try_with` both invoke
`f` exactly once on the task and a freshly constructed `Context`, returning
`f`'s result (`try_with` wrapping it in `Ok`); if the task is already
borrowed, `with` panics while `try_with` returns `Err(BorrowMutError)`
without invoking `f` (its result is independent of `f`) and without touching
the task. -/
theorem with_try_with_borrow_discipline {ε τ ρ : Type} (el : ε) (b : Bool)
    (t : τ) (f : τ → Portlight.Context ε τ → τ × ρ) :
    (b = false →
      Portlight.TaskHandle.with el b t f =
        some (f t (Portlight.Context.new el t)) ∧
      Portlight.TaskHandle.tryWith el b t f =
        .ok (f t (Portlight.Context.new el t))) ∧
    (b = true →
      Portlight.TaskHandle.with el b t f = none ∧
      Portlight.TaskHandle.tryWith el b t f = .error .borrowMutError ∧
      ∀ g : τ → Portlight.Context ε τ → τ × ρ,
        Portlight.TaskHandle.tryWith el b t g =
          Portlight.TaskHandle.tryWith el b t f) := by
  constructor
  · intro hb
    subst hb
    exact ⟨rfl, rfl⟩
  · intro hb
    subst hb
    exact ⟨rfl, rfl, fun g => rfl⟩

/-- Witness for C7 at concrete inputs: an unborrowed task is mutated and the
result returned; a borrowed task makes `with` panic and `try_with` report the
conflict. -/
theorem with_try_with_borrow_discipline_witness :
    (Portlight.TaskHandle.with (0 : Nat) false (5 : Nat)
        (fun t _ => (t + 1, t * 2)) = some (6, 10) ∧
      Portlight.TaskHandle.tryWith (0 : Nat) false (5 : Nat)
        (fun t _ => (t + 1, t * 2)) = .ok (6, 10)) ∧
    (Portlight.TaskHandle.with (0 : Nat) true (5 : Nat)
        (fun t _ => (t + 1, t * 2)) = none ∧
      Portlight.TaskHandle.tryWith (0 : Nat) true (5 : Nat)
        (fun t _ => (t + 1, t * 2)) = .error .borrowMutError) := by
  have h1 := (with_try_with_borrow_discipline (0 : Nat) false (5 : Nat)
    (fun t _ => (t + 1, t * 2))).1 rfl
  have h2 := (with_try_with_borrow_discipline (0 : Nat) true (5 : Nat)
    (fun t _ => (t + 1, t * 2))).2 rfl
  exact ⟨⟨h1.1, h1.2⟩, h2.1, h2.2.1⟩

/-- C4: when resolving the task fails — the weak reference no longer upgrades
or the task is already exclusively borrowed — `handle_event` returns no
`Response` and leaves the slot unchanged; and once the `TaskHandle` is
dropped, every subsequent delivery attempt is a silent no-op. -/
theorem handle_event_silent_drop {τ : Type}
    (h : τ → Portlight.Key → Portlight.WindowEvent → τ × Portlight.Response)
    (slot : Portlight.TaskSlot τ) (key : Portlight.Key)
    (ev : Portlight.WindowEvent) (evs : List Portlight.WindowEvent) :
    ((slot = .dead ∨ ∃ t, slot = .borrowed t) →
      Portlight.handleEvent h slot key ev = (none, slot)) ∧
    Portlight.deliverAll h .dead key evs =
      (evs.map fun _ => none, .dead) := by
  constructor
  · rintro (rfl | ⟨t, rfl⟩) <;> rfl
  · induction evs with
    | nil => rfl
    | cons e rest ih =>
        simp [Portlight.deliverAll, Portlight.handleEvent, ih]

/-- Witness for C4 at concrete inputs: a dead slot and a borrowed slot both
silently drop a `Close` event, and three deliveries to a dead slot all yield
`none`. -/
theorem handle_event_silent_drop_witness :
    Portlight.handleEvent (fun (t : Nat) _ _ => (t, Portlight.Response.ignore))
        Portlight.TaskSlot.dead ⟨0⟩ .close = (none, .dead) ∧
    Portlight.handleEvent (fun (t : Nat) _ _ => (t, Portlight.Response.ignore))
        (Portlight.TaskSlot.borrowed 7) ⟨0⟩ .close = (none, .borrowed 7) ∧
    Portlight.deliverAll (fun (t : Nat) _ _ => (t, Portlight.Response.ignore))
        Portlight.TaskSlot.dead ⟨0⟩ [.close, .frame, .mouseEnter] =
      ([none, none, none], .dead) := by
  refine ⟨?_, ?_, ?_⟩
  · exact (handle_event_silent_drop _ _ ⟨0⟩ .close []).1 (Or.inl rfl)
  · exact (handle_event_silent_drop _ _ ⟨0⟩ .close []).1 (Or.inr ⟨7, rfl⟩)
  · have h := (handle_event_silent_drop
      (fun (t : Nat) _ _ => (t, Portlight.Response.ignore))
      Portlight.TaskSlot.dead ⟨0⟩ .close
      [.close, .frame, .mouseEnter]).2
    simpa using h

namespace Portlight

/-- Helper: the Win32 pump started with `running = true` never aborts, and
the state it returns still has `running = true` (no dispatch path touches the
`running` cell). -/
theorem pumpW_preserves_running {π : Type} (msgs : List (W32Msg π)) :
    ∀ s : W32State π, s.running = true →
      ∃ s1 rest, pumpW s msgs = some (s1, rest) ∧ s1.running = true := by
  induction msgs with
  | nil =>
      intro s hs
      by_cases hq : s.quitPosted
      · exact ⟨{ s with quitPosted := false }, [], by simp [pumpW, hq], hs⟩
      · exact ⟨s, [], by simp [pumpW, hq], hs⟩
  | cons m rest ih =>
      intro s hs
      by_cases hq : s.quitPosted
      · exact ⟨{ s with quitPosted := false }, m :: rest, by simp [pumpW, hq], hs⟩
      · cases m with
        | event =>
            obtain ⟨s1, r1, h1, h2⟩ := ih s hs
            exact ⟨s1, r1, by simpa [pumpW, hq, dispatchMsg] using h1, h2⟩
        | panicky p =>
            obtain ⟨s1, r1, h1, h2⟩ :=
              ih (postQuit { s with panicCell := some p }) (by simpa [postQuit] using hs)
            refine ⟨s1, r1, ?_, h2⟩
            simpa [pumpW, hq, dispatchMsg, propagatePanic, hs] using h1

/-- Helper: pumping a run of ordinary events followed by a panicking callback
stores the panic, posts quit, and stops with the panic in the cell and the
quit message consumed. -/
theorem pumpW_until_panic {π : Type} (p : π) (rest : List (W32Msg π)) :
    ∀ pre : List (W32Msg π), (∀ m ∈ pre, m = W32Msg.event) →
      pumpW (⟨true, none, false⟩ : W32State π) (pre ++ .panicky p :: rest) =
        some (⟨true, some p, false⟩, rest) := by
  intro pre
  induction pre with
  | nil =>
      intro _
      cases rest <;>
        simp [pumpW, dispatchMsg, propagatePanic, postQuit]
  | cons m pre' ih =>
      intro hpre
      have hm : m = W32Msg.event := hpre m (List.mem_cons_self m pre')
      subst hm
      have h' := ih (fun m hm => hpre m (List.mem_cons_of_mem _ hm))
      simpa [pumpW, dispatchMsg] using h'

end Portlight

/-- C1 (failing input): on the X11 backend, `exit()` called while the loop is
`Stopped` sets the run state to `Exiting` instead of being a no-op, and a
subsequent `poll()` fails with `AlreadyRunning` — whereas a `poll()` without
the stray `exit()` succeeds, `run()` is unaffected, and the Win32 backend's
`exit()` really is a no-op when not running. -/
theorem exit_while_stopped_bricks_x11_poll :
    Portlight.exitX Portlight.RunState.stopped = Portlight.RunState.exiting ∧
    Portlight.pollX (Portlight.exitX Portlight.RunState.stopped) [] =
      .error .alreadyRunning ∧
    Portlight.pollX Portlight.RunState.stopped [] =
      .ok Portlight.RunState.stopped ∧
    Portlight.runX (Portlight.exitX Portlight.RunState.stopped) [] =
      .ok Portlight.RunState.stopped ∧
    Portlight.runX Portlight.RunState.stopped [] =
      .ok Portlight.RunState.stopped ∧
    Portlight.exitW (⟨false, none, false⟩ : Portlight.W32State Nat) =
      ⟨false, none, false⟩ :=
  ⟨rfl, rfl, rfl, rfl, rfl, rfl⟩

/-- C2: a panic raised by a callback dispatched while the Win32 loop is
`Running` is stored in the panic cell, the loop is stopped through
`PostQuitMessage` — the same mechanism `exit()` uses — and the panic is
re-raised from the `run`/`poll` call driving the loop, emptying the cell and
leaving the messages after the panic unprocessed; a panic dispatched while
the loop is not `Running` aborts the process. -/
theorem panic_propagation {π : Type} (s : Portlight.W32State π)
    (pre rest : List (Portlight.W32Msg π)) (p : π) :
    (s.running = false → s.panicCell = none → s.quitPosted = false →
      (∀ m ∈ pre, m = Portlight.W32Msg.event) →
      Portlight.runW s (pre ++ .panicky p :: rest) =
        (.panicked p, ⟨false, none, false⟩, rest)) ∧
    (s.running = false → Portlight.dispatchMsg s (.panicky p) = none) ∧
    (∀ s' : Portlight.W32State π, s'.running = true →
      Portlight.propagatePanic s' p =
        some (Portlight.exitW { s' with panicCell := some p })) := by
  refine ⟨?_, ?_, ?_⟩
  · intro h1 h2 h3 hpre
    obtain ⟨r, c, q⟩ := s
    simp only at h1 h2 h3
    subst h1; subst h2; subst h3
    have hp := Portlight.pumpW_until_panic p rest pre hpre
    simp [Portlight.runW, hp]
  · intro h1
    simp [Portlight.dispatchMsg, Portlight.propagatePanic, h1]
  · intro s' hs'
    simp [Portlight.propagatePanic, Portlight.exitW, hs']

/-- Witness for C2 at concrete inputs: an event, then a callback panicking
with payload 42, then one more event; the run re-raises 42, empties the cell,
stops running, and leaves the trailing event unprocessed; dispatching the
panic outside a run aborts. -/
theorem panic_propagation_witness :
    Portlight.runW (⟨false, none, false⟩ : Portlight.W32State Nat)
        [.event, .panicky 42, .event] =
      (.panicked 42, ⟨false, none, false⟩, [.event]) ∧
    Portlight.dispatchMsg (⟨false, none, false⟩ : Portlight.W32State Nat)
        (.panicky 42) = none := by
  have h := panic_propagation (⟨false, none, false⟩ : Portlight.W32State Nat)
    [.event] [.event] 42
  exact ⟨h.1 rfl rfl rfl (by decide), h.2.1 rfl⟩

namespace Portlight

/-- Helper: a Win32 `run`/`poll` call entered with `running = false` acquires
the guard (so it cannot fail with `AlreadyRunning`) and ends with
`running = false` again. -/
theorem runW_from_stopped {π : Type} (s : W32State π)
    (msgs : List (W32Msg π)) (hs : s.running = false) :
    (runW s msgs).1 ≠ .alreadyRunning ∧ (runW s msgs).2.1.running = false := by
  obtain ⟨s1, rest, hpump, hrun1⟩ :=
    pumpW_preserves_running msgs { s with running := true } rfl
  unfold runW
  rw [hs]
  simp only [Bool.false_eq_true, if_false, hpump]
  cases hcell : s1.panicCell <;> simp

end Portlight

/-- C5 (amended): `run()` fails with `AlreadyRunning` exactly when the loop is
already running (the guard is acquired atomically with that check), the guard
is released unconditionally on every exit path — so after any call that
acquired it returns, normally or by re-raising a panic, the loop is back in
the not-running state and a fresh call cannot fail with `AlreadyRunning` —
and a failing call leaves the state untouched.  On the X11 backend `run()`
also satisfies the exact iff, but `poll()` fails whenever the state differs
from `Stopped`, which includes the `Exiting` state a stray `exit()` leaves
behind. -/
theorem run_guard_correctness {π : Type} (s : Portlight.W32State π)
    (msgs msgs2 : List (Portlight.W32Msg π)) (st : Portlight.RunState)
    (cbs : List Portlight.CbEffect) :
    ((Portlight.runW s msgs).1 = .alreadyRunning ↔ s.running = true) ∧
    ((Portlight.runW s msgs).1 = .alreadyRunning →
      (Portlight.runW s msgs).2 = (s, msgs)) ∧
    (s.running = false →
      (Portlight.runW s msgs).2.1.running = false ∧
      (Portlight.runW (Portlight.runW s msgs).2.1 msgs2).1 ≠ .alreadyRunning) ∧
    (Portlight.runX st cbs = .error .alreadyRunning ↔
      st = Portlight.RunState.running) ∧
    (st ≠ Portlight.RunState.running →
      Portlight.runX st cbs = .ok Portlight.RunState.stopped) ∧
    (Portlight.pollX st cbs = .error .alreadyRunning ↔
      st ≠ Portlight.RunState.stopped) ∧
    (st = Portlight.RunState.stopped →
      Portlight.pollX st cbs = .ok Portlight.RunState.stopped) := by
  refine ⟨?_, ?_, ?_, ?_, ?_, ?_, ?_⟩
  · constructor
    · intro h
      cases hr : s.running
      · exact absurd h (Portlight.runW_from_stopped s msgs hr).1
      · rfl
    · intro hs
      unfold Portlight.runW
      rw [hs]
      simp
  · intro h
    have hs : s.running = true := by
      cases hr : s.running
      · exact absurd h (Portlight.runW_from_stopped s msgs hr).1
      · rfl
    unfold Portlight.runW
    rw [hs]
    simp
  · intro hs
    exact ⟨(Portlight.runW_from_stopped s msgs hs).2,
      (Portlight.runW_from_stopped (Portlight.runW s msgs).2.1 msgs2
        (Portlight.runW_from_stopped s msgs hs).2).1⟩
  · cases st <;> simp [Portlight.runX, Portlight.runGuardNewX, Portlight.runGuardDropX]
  · intro hst
    cases st <;>
      simp [Portlight.runX, Portlight.runGuardNewX, Portlight.runGuardDropX] at hst ⊢
  · cases st <;>
      simp [Portlight.pollX, Portlight.runGuardNewX, Portlight.runGuardDropX]
  · intro hst
    subst hst
    rfl

/-- C5 counterexample: as literally stated the claim is false on the X11
backend — `poll()` fails with `AlreadyRunning` from the `Exiting` state, a
state other than `Running`. -/
theorem poll_already_running_without_running :
    Portlight.pollX Portlight.RunState.exiting [] = .error .alreadyRunning ∧
    Portlight.RunState.exiting ≠ Portlight.RunState.running :=
  ⟨rfl, by decide⟩

/-- Witness for C5 at concrete inputs: a stopped Win32 loop runs one event
and returns to the not-running state, after which a fresh `run` does not fail
with `AlreadyRunning`; a stopped X11 loop runs and polls to `Stopped`. -/
theorem run_guard_correctness_witness :
    (Portlight.runW (⟨false, none, false⟩ : Portlight.W32State Nat)
        [.event]).2.1.running = false ∧
    (Portlight.runW
        (Portlight.runW (⟨false, none, false⟩ : Portlight.W32State Nat)
          [.event]).2.1 []).1 ≠ .alreadyRunning ∧
    Portlight.runX Portlight.RunState.stopped [.callExit] =
      .ok Portlight.RunState.stopped ∧
    Portlight.pollX Portlight.RunState.stopped [.callExit] =
      .ok Portlight.RunState.stopped := by
  have h := run_guard_correctness (⟨false, none, false⟩ : Portlight.W32State Nat)
    [.event] [] Portlight.RunState.stopped [.callExit]
  exact ⟨(h.2.2.1 rfl).1, (h.2.2.1 rfl).2, h.2.2.2.2.1 (by decide),
    h.2.2.2.2.2.2 rfl⟩

namespace Portlight

/-! ## `src/backend/x11/event_loop.rs`: the `Expose` arm of `drain_events`

    protocol::Event::Expose(event) => {
        if let Some(window) = self.get_window(event.window) {
            let rect_physical = Rect { x, y, width, height };
            let rect = rect_physical.scale(self.scale.recip());
            let expose_rects = &window.expose_rects;
            expose_rects.borrow_mut().push(rect);
            if event.count == 0 {
                let rects = expose_rects.take();
                self.handle_event(&window, WindowEvent::Expose(&rects));
            }
        }
    }
-/

/-- An X11 `Expose` event for one window: the damaged rectangle in physical
units and the `count` field (number of `Expose` events still to follow;
`0` marks the last rect of a batch). -/
structure XExposeEvent where
  rect : QRect
  count : Nat
deriving DecidableEq, Repr

/-- One `Expose` arm execution: scale the rect from physical to logical
units, push it onto the window's `expose_rects` accumulator, and when
`count == 0` take the accumulator (emptying it) and deliver one
`WindowEvent::Expose` with the accumulated rects.  Returns the new
accumulator and the delivered rect list, if any. -/
def processExpose (scale : ℚ) (acc : List QRect) (ev : XExposeEvent) :
    List QRect × Option (List QRect) :=
  let rect := ev.rect.scale scale⁻¹
  let acc2 := acc ++ [rect]
  if ev.count = 0 then
    ([], some acc2)
  else
    (acc2, none)

/-- Processing a sequence of `Expose` events for one window, collecting every
delivered `Expose` rect list in order. -/
def drainExpose (scale : ℚ) (acc : List QRect) :
    List XExposeEvent → List QRect × List (List QRect)
  | [] => (acc, [])
  | ev :: rest =>
      let (acc2, delivered) := processExpose scale acc ev
      let (accF, dels) := drainExpose scale acc2 rest
      (accF, delivered.toList ++ dels)

/-- Helper for C6: processing a batch from an arbitrary accumulator delivers
exactly once, with the accumulator contents prepended. -/
theorem drainExpose_batch (scale : ℚ) (lastEv : XExposeEvent)
    (hlast : lastEv.count = 0) :
    ∀ (pre : List XExposeEvent) (acc : List QRect),
      (∀ ev ∈ pre, ev.count ≠ 0) →
      drainExpose scale acc (pre ++ [lastEv]) =
        ([], [acc ++ (pre ++ [lastEv]).map (fun ev => ev.rect.scale scale⁻¹)]) := by
  intro pre
  induction pre with
  | nil =>
      intro acc _
      simp [drainExpose, processExpose, hlast]
  | cons ev pre' ih =>
      intro acc hpre
      have hev : ev.count ≠ 0 := hpre ev (List.mem_cons_self ev pre')
      have h' := ih (acc ++ [ev.rect.scale scale⁻¹])
        (fun e he => hpre e (List.mem_cons_of_mem _ he))
      simp only [List.cons_append, drainExpose, processExpose, if_neg hev,
        List.append_eq]
      rw [h']
      simp

end Portlight

/-- C6: a batch of native damage events terminated by the `count == 0` marker
produces exactly one delivered `Expose`, whose rect list is the accumulation
of all the batch's rects (each scaled from physical to logical units by the
reciprocal of the backing scale), and the accumulator is empty afterwards so
the next batch starts fresh. -/
theorem expose_delivered_once_per_batch (scale : ℚ)
    (pre : List Portlight.XExposeEvent) (lastEv : Portlight.XExposeEvent) :
    (∀ ev ∈ pre, ev.count ≠ 0) → lastEv.count = 0 →
    Portlight.drainExpose scale [] (pre ++ [lastEv]) =
      ([], [(pre ++ [lastEv]).map (fun ev => ev.rect.scale scale⁻¹)]) := by
  intro hpre hlast
  simpa using Portlight.drainExpose_batch scale lastEv hlast pre [] hpre

/-- Witness for C6 at concrete inputs: a three-rect batch with counts 2, 1, 0
at scale 2 delivers one `Expose` carrying all three rects halved, leaving the
accumulator empty. -/
theorem expose_delivered_once_per_batch_witness :
    Portlight.drainExpose 2 []
        [⟨⟨0, 0, 4, 4⟩, 2⟩, ⟨⟨4, 0, 2, 2⟩, 1⟩, ⟨⟨0, 4, 6, 2⟩, 0⟩] =
      ([], [[⟨0, 0, 2, 2⟩, ⟨2, 0, 1, 1⟩, ⟨0, 2, 3, 1⟩]]) := by
  have h := expose_delivered_once_per_batch 2
    [⟨⟨0, 0, 4, 4⟩, 2⟩, ⟨⟨4, 0, 2, 2⟩, 1⟩] ⟨⟨0, 4, 6, 2⟩, 0⟩
    (by decide) rfl
  rw [show ([⟨⟨0, 0, 4, 4⟩, 2⟩, ⟨⟨4, 0, 2, 2⟩, 1⟩, ⟨⟨0, 4, 6, 2⟩, 0⟩] :
      List Portlight.XExposeEvent) =
    [⟨⟨0, 0, 4, 4⟩, 2⟩, ⟨⟨4, 0, 2, 2⟩, 1⟩] ++ [⟨⟨0, 4, 6, 2⟩, 0⟩] from rfl, h]
  simp [Portlight.QRect.scale]
  norm_num

namespace Portlight

/-! ## `src/backend/win32/window.rs`: mouse press count and pointer capture

From the `WM_*BUTTONDOWN`/`WM_*BUTTONUP` arm of `wnd_proc`:

    WindowEvent::MouseDown(_) => {
        state.mouse_down_count.set(state.mouse_down_count.get() + 1);
        if state.mouse_down_count.get() == 1 { SetCapture(hwnd); }
    }
    WindowEvent::MouseUp(_) => {
        state.mouse_down_count.set(state.mouse_down_count.get() - 1);
        if state.mouse_down_count.get() == 0 { let _ = ReleaseCapture(); }
    }

`mouse_down_count` is a `Cell<isize>`, modelled as `Int`. -/

/-- A mouse button transition event, tagged with which button changed. -/
inductive MouseBtnEvent where
  | down (b : MouseButton)
  | up (b : MouseButton)
deriving DecidableEq, Repr

/-- Whether the event is a `MouseDown`. -/
def MouseBtnEvent.isDown : MouseBtnEvent → Bool
  | .down _ => true
  | .up _ => false

/-- The native pointer-capture calls `wnd_proc` can issue. -/
inductive CaptureAction where
  | setCapture
  | releaseCapture
deriving DecidableEq, Repr

/-- One button event's effect on the press count, together with the capture
call it issues, if any. -/
def mouseButtonStep (count : Int) : MouseBtnEvent → Int × Option CaptureAction
  | .down _ =>
      let c2 := count + 1
      (c2, if c2 = 1 then some .setCapture else none)
  | .up _ =>
      let c2 := count - 1
      (c2, if c2 = 0 then some .releaseCapture else none)

/-- A sequence of button events folded through `mouseButtonStep`, collecting
every capture call in order. -/
def mouseButtonRun (count : Int) :
    List MouseBtnEvent → Int × List CaptureAction
  | [] => (count, [])
  | ev :: rest =>
      let (c2, act) := mouseButtonStep count ev
      let (cF, acts) := mouseButtonRun c2 rest
      (cF, act.toList ++ acts)

/-- Helper for C8: the final press count is the initial count plus downs
minus ups. -/
theorem mouseButtonRun_count (evs : List MouseBtnEvent) :
    ∀ c : Int, (mouseButtonRun c evs).1 =
      c + (evs.countP MouseBtnEvent.isDown : Int) -
        (evs.countP (fun e => !e.isDown) : Int) := by
  induction evs with
  | nil => intro c; simp [mouseButtonRun]
  | cons ev rest ih =>
      intro c
      cases ev <;>
        simp [mouseButtonRun, mouseButtonStep, List.countP_cons,
          MouseBtnEvent.isDown, ih]
      all_goals omega

end Portlight

/-- C8: the per-window press count is incremented on each `MouseDown` and
decremented on each `MouseUp` regardless of which button changed (over any
event sequence the final count is the initial count plus downs minus ups),
and the capture call of each step is completely determined by the old count:
`SetCapture` exactly on the 0→1 transition of a down, `ReleaseCapture`
exactly on the 1→0 transition of an up, nothing otherwise. -/
theorem mouse_capture_transitions (c : Int) (b b2 : Portlight.MouseButton)
    (evs : List Portlight.MouseBtnEvent) :
    Portlight.mouseButtonStep c (.down b) =
      (c + 1, if c = 0 then some .setCapture else none) ∧
    Portlight.mouseButtonStep c (.up b2) =
      (c - 1, if c = 1 then some .releaseCapture else none) ∧
    (Portlight.mouseButtonRun c evs).1 =
      c + (evs.countP Portlight.MouseBtnEvent.isDown : Int) -
        (evs.countP (fun e => !e.isDown) : Int) := by
  refine ⟨?_, ?_, Portlight.mouseButtonRun_count evs c⟩
  · by_cases hc : c = 0 <;> simp [Portlight.mouseButtonStep, hc]
  · by_cases hc : c = 1 <;> simp [Portlight.mouseButtonStep, hc]
    all_goals omega

namespace Portlight

/-! ## `src/backend/cocoa/window.rs`: `WindowState::present`

    if let Some(surface) = &mut *self.surface.borrow_mut() {
        let width = surface.width;
        let height = surface.height;
        let copy_width = bitmap.width().min(width);
        let copy_height = bitmap.height().min(height);
        surface.with_buffer(|buffer| {
            for row in 0..copy_height {
                let src = &bitmap.data()[row * bitmap.width()
                    ..row * bitmap.width() + copy_width];
                let dst = &mut buffer[row * width..row * width + copy_width];
                dst.copy_from_slice(src);
            }
        });
        surface.present();
    }

Pixel buffers are modelled as total functions from flat index to pixel value;
the bitmap's pixel at (row, col) sits at index `row * bw + col` and the
surface's at `row * sw + col`. -/

/-- One iteration of the row loop:
`dst[row*sw .. row*sw+cw] ← src[row*bw .. row*bw+cw]` as a pointwise
function (`copy_from_slice`). -/
def copyRowSpan (src dst : Nat → Nat) (bw sw cw row : Nat) : Nat → Nat :=
  fun i =>
    if row * sw ≤ i ∧ i < row * sw + cw then
      src (row * bw + (i - row * sw))
    else
      dst i

/-- The row loop `for row in 0..n`, applied in order: `presentRows … n dst`
is the buffer after rows `0, …, n-1` have been copied. -/
def presentRows (src : Nat → Nat) (bw sw cw : Nat) :
    Nat → (Nat → Nat) → (Nat → Nat)
  | 0, dst => dst
  | n + 1, dst => copyRowSpan src (presentRows src bw sw cw n dst) bw sw cw n

/-- `WindowState::present`: copy `min bh sh` rows of `min bw sw` pixels each
from the bitmap (`src`, dimensions `bw × bh`) into the locked surface buffer
(`dst`, dimensions `sw × sh`). -/
def present (src : Nat → Nat) (bw bh : Nat) (dst : Nat → Nat)
    (sw sh : Nat) : Nat → Nat :=
  presentRows src bw sw (min bw sw) (min bh sh) dst

/-- Helper for C9: a pixel inside the copied region holds the bitmap pixel of
the same (row, col). -/
theorem presentRows_copies (src dst : Nat → Nat) (bw sw cw : Nat)
    (hcw : cw ≤ sw) :
    ∀ n row col, row < n → col < cw →
      presentRows src bw sw cw n dst (row * sw + col) = src (row * bw + col) := by
  intro n
  induction n with
  | zero => intro row col h _; exact absurd h (Nat.not_lt_zero row)
  | succ n ih =>
      intro row col hrow hcol
      by_cases hr : row = n
      · subst hr
        have hin : row * sw ≤ row * sw + col ∧
            row * sw + col < row * sw + cw :=
          ⟨Nat.le_add_right _ _, Nat.add_lt_add_left hcol _⟩
        simp only [presentRows, copyRowSpan, if_pos hin]
        rw [Nat.add_sub_cancel_left]
      · have hrow' : row < n := Nat.lt_of_lt_of_le
          (Nat.lt_of_le_of_ne (Nat.le_of_lt_succ hrow) hr) (Nat.le_refl n)
        have hlt : row * sw + col < n * sw := by
          calc row * sw + col < row * sw + sw := Nat.add_lt_add_left
                (Nat.lt_of_lt_of_le hcol hcw) _
            _ = (row + 1) * sw := (Nat.succ_mul row sw).symm
            _ ≤ n * sw := Nat.mul_le_mul_right sw hrow'
        have hout : ¬(n * sw ≤ row * sw + col ∧
            row * sw + col < n * sw + cw) := fun h =>
          Nat.not_le_of_lt hlt h.1
        simp only [presentRows, copyRowSpan, if_neg hout]
        exact ih row col hrow' hcol

/-- Helper for C9: a pixel outside every copied row span is left unchanged. -/
theorem presentRows_preserves (src dst : Nat → Nat) (bw sw cw : Nat) :
    ∀ n i, (∀ row < n, ∀ col < cw, i ≠ row * sw + col) →
      presentRows src bw sw cw n dst i = dst i := by
  intro n
  induction n with
  | zero => intro i _; rfl
  | succ n ih =>
      intro i hi
      have hout : ¬(n * sw ≤ i ∧ i < n * sw + cw) := by
        rintro ⟨h1, h2⟩
        exact hi n (Nat.lt_succ_self n) (i - n * sw) (by omega) (by omega)
      simp only [presentRows, copyRowSpan, if_neg hout]
      exact ih i fun row hrow col hcol =>
        hi row (Nat.lt_succ_of_lt hrow) col hcol

/-- Helper for C9: the copy only reads bitmap indices below `bh * bw`, so two
bitmaps agreeing there produce identical results. -/
theorem presentRows_reads_in_range (src src2 dst : Nat → Nat)
    (bw bh sw cw : Nat) (hcw : cw ≤ bw)
    (hsrc : ∀ j, j < bh * bw → src j = src2 j) :
    ∀ n, n ≤ bh → ∀ i,
      presentRows src bw sw cw n dst i = presentRows src2 bw sw cw n dst i := by
  intro n
  induction n with
  | zero => intro _ i; rfl
  | succ n ih =>
      intro hn i
      have hn' : n ≤ bh := Nat.le_of_lt (Nat.lt_of_lt_of_le (Nat.lt_succ_self n) hn)
      simp only [presentRows, copyRowSpan]
      by_cases hin : n * sw ≤ i ∧ i < n * sw + cw
      · rw [if_pos hin, if_pos hin, hsrc]
        have hoff : i - n * sw < cw := by omega
        calc n * bw + (i - n * sw) < n * bw + bw :=
              Nat.add_lt_add_left (Nat.lt_of_lt_of_le hoff hcw) _
          _ = (n + 1) * bw := (Nat.succ_mul n bw).symm
          _ ≤ bh * bw := Nat.mul_le_mul_right bw hn
      · rw [if_neg hin, if_neg hin, ih hn']

end Portlight

/-- C9: `present` with a `bw × bh` bitmap and a `sw × sh` surface copies
row-by-row clipped to `min bw sw` columns and `min bh sh` rows: every
surface pixel in the overlapping region receives the bitmap pixel at the
same (row, col); every other surface pixel is unmodified; and no bitmap
index at or beyond `bh * bw` is read (bitmaps agreeing below `bh * bw`
produce the same surface). -/
theorem present_clipped_copy (src src2 dst : Nat → Nat)
    (bw bh sw sh row col i : Nat) :
    (row < min bh sh → col < min bw sw →
      Portlight.present src bw bh dst sw sh (row * sw + col) =
        src (row * bw + col)) ∧
    ((∀ r2 < min bh sh, ∀ c2 < min bw sw, i ≠ r2 * sw + c2) →
      Portlight.present src bw bh dst sw sh i = dst i) ∧
    ((∀ j, j < bh * bw → src j = src2 j) →
      Portlight.present src bw bh dst sw sh i =
        Portlight.present src2 bw bh dst sw sh i) := by
  refine ⟨?_, ?_, ?_⟩
  · intro hrow hcol
    exact Portlight.presentRows_copies src dst bw sw (min bw sw)
      (Nat.min_le_right bw sw) (min bh sh) row col hrow hcol
  · intro hi
    exact Portlight.presentRows_preserves src dst bw sw (min bw sw)
      (min bh sh) i hi
  · intro hsrc
    exact Portlight.presentRows_reads_in_range src src2 dst bw bh sw
      (min bw sw) (Nat.min_le_left bw sw) hsrc (min bh sh)
      (Nat.min_le_left bh sh) i

/-- Witness for C9 at concrete inputs: a 2×2 bitmap presented onto a 3×3
surface copies pixel (1,1), leaves surface index 2 untouched, and gives the
same result as a bitmap rewritten beyond index `bh * bw = 4`. -/
theorem present_clipped_copy_witness :
    Portlight.present (fun j => j) 2 2 (fun _ => 9) 3 3 (1 * 3 + 1) =
      (fun j => j) (1 * 2 + 1) ∧
    Portlight.present (fun j => j) 2 2 (fun _ => 9) 3 3 2 = 9 ∧
    Portlight.present (fun j => j) 2 2 (fun _ => 9) 3 3 5 =
      Portlight.present (fun j => if j < 4 then j else 99) 2 2
        (fun _ => 9) 3 3 5 := by
  have h := present_clipped_copy (fun j => j)
    (fun j => if j < 4 then j else 99) (fun _ => 9) 2 2 3 3 1 1 2
  have h5 := present_clipped_copy (fun j => j)
    (fun j => if j < 4 then j else 99) (fun _ => 9) 2 2 3 3 1 1 5
  refine ⟨h.1 (by decide) (by decide), h.2.1 (by decide), ?_⟩
  exact h5.2.2 (by decide)

namespace Portlight

/-! ## `src/backend/x11/timer.rs`: the software timer queue

    pub fn poll(&self, ...) {
        let now = Instant::now();
        // Check with < and not <= so that we don't process a timer twice
        // during this loop
        while self.next_time().map_or(false, |t| t < now) {
            let next = self.queue.borrow_mut().pop().unwrap();
            // If we don't find the timer in `self.timers`, it has been
            // canceled
            if let Some(timer) = self.timers.borrow().get(&next.timer_id).cloned() {
                timer.handler.borrow_mut()(data, app_state);
                // If we fall behind by more than one timer interval, reset
                // the timer's phase
                let next_time = (next.time + timer.duration).max(now);
                self.queue.borrow_mut().push(QueueEntry { time: next_time,
                    timer_id: next.timer_id })
            }
        }
    }

`Instant`/`Duration` are modelled as `Nat` ticks.  The `BinaryHeap` ordered
by earliest `time` is modelled as a list kept sorted ascending by `time`
(`pushEntry` inserts in order; popping takes the head).  The timer map is an
association list `timerId ↦ duration`; a canceled timer is simply absent.
The handler call itself is abstracted away: this model observes which timers
fire and how they are rescheduled. -/

/-- `QueueEntry` from `src/backend/x11/timer.rs`. -/
structure QueueEntry where
  time : Nat
  timerId : Nat
deriving DecidableEq, Repr

/-- `BinaryHeap::push` under the min-by-`time` order: sorted insertion. -/
def pushEntry (e : QueueEntry) : List QueueEntry → List QueueEntry
  | [] => [e]
  | f :: rest =>
      if e.time ≤ f.time then
        e :: f :: rest
      else
        f :: pushEntry e rest

/-- `Timers::next_time`: the earliest queued due time (heap peek). -/
def nextTime : List QueueEntry → Option Nat
  | [] => none
  | e :: _ => some e.time

/-- The loop of `Timers::poll`, with explicit fuel (the number of due
entries, see `Timers.poll`): pop the earliest entry while it is due strictly
before `now`; a canceled timer (absent from the map) is dropped; a live one
fires and is re-queued at `max (last_due + duration) now`.  Returns the
fired timer ids in firing order and the final queue. -/
def pollAux (timers : List (Nat × Nat)) (now : Nat) :
    Nat → List QueueEntry → List Nat × List QueueEntry
  | 0, queue => ([], queue)
  | fuel + 1, queue =>
      match queue with
      | [] => ([], [])
      | e :: rest =>
          if e.time < now then
            match List.lookup e.timerId timers with
            | some d =>
                let r := pollAux timers now fuel
                  (pushEntry ⟨max (e.time + d) now, e.timerId⟩ rest)
                (e.timerId :: r.1, r.2)
            | none => pollAux timers now fuel rest
          else
            ([], queue)

/-- `Timers::poll` with `now` sampled once at entry.  Each loop iteration
removes one entry due before `now` and re-queues it (if at all) at a time
`≥ now`, so the number of due entries bounds the iteration count exactly and
serves as fuel. -/
def Timers.poll (timers : List (Nat × Nat)) (now : Nat)
    (queue : List QueueEntry) : List Nat × List QueueEntry :=
  pollAux timers now (queue.countP fun e => e.time < now) queue

/-- `pushEntry` is a permutation of plain cons. -/
theorem perm_pushEntry (e : QueueEntry) :
    ∀ l : List QueueEntry, List.Perm (pushEntry e l) (e :: l) := by
  intro l
  induction l with
  | nil => rfl
  | cons f rest ih =>
      by_cases h : e.time ≤ f.time
      · simp [pushEntry, h]
      · simp only [pushEntry, if_neg h]
        exact (ih.cons f).trans (List.Perm.swap e f rest)

/-- Membership in a `pushEntry` result. -/
theorem mem_pushEntry {a e : QueueEntry} {l : List QueueEntry} :
    a ∈ pushEntry e l ↔ a = e ∨ a ∈ l := by
  rw [(perm_pushEntry e l).mem_iff, List.mem_cons]

/-- `pushEntry` preserves sortedness by due time. -/
theorem pairwise_pushEntry (e : QueueEntry) :
    ∀ l : List QueueEntry,
      l.Pairwise (fun a b => a.time ≤ b.time) →
      (pushEntry e l).Pairwise (fun a b => a.time ≤ b.time) := by
  intro l
  induction l with
  | nil => intro _; simp [pushEntry]
  | cons f rest ih =>
      intro hp
      rw [List.pairwise_cons] at hp
      by_cases h : e.time ≤ f.time
      · simp only [pushEntry, if_pos h]
        rw [List.pairwise_cons]
        refine ⟨?_, List.pairwise_cons.mpr hp⟩
        intro b hb
        rcases List.mem_cons.mp hb with rfl | hb2
        · exact h
        · exact Nat.le_trans h (hp.1 b hb2)
      · simp only [pushEntry, if_neg h]
        rw [List.pairwise_cons]
        refine ⟨?_, ih hp.2⟩
        intro b hb
        rcases mem_pushEntry.mp hb with rfl | hb2
        · exact Nat.le_of_lt (Nat.lt_of_not_le h)
        · exact hp.1 b hb2

end Portlight

namespace Portlight

/-- Helper for C3: a timer id none of whose queue entries is due strictly
before `now` never fires during the pass (in particular an id due exactly at
`now`, and one that fired already in this pass and was re-queued at
`≥ now`). -/
theorem pollAux_count_zero (timers : List (Nat × Nat)) (now id : Nat) :
    ∀ (fuel : Nat) (queue : List QueueEntry),
      (∀ e ∈ queue, e.timerId = id → ¬ e.time < now) →
      (pollAux timers now fuel queue).1.count id = 0 := by
  intro fuel
  induction fuel with
  | zero => intro queue _; simp [pollAux]
  | succ fuel ih =>
      intro queue hq
      cases queue with
      | nil => simp [pollAux]
      | cons e rest =>
          by_cases he : e.time < now
          · have hid : e.timerId ≠ id :=
              fun h => hq e (List.mem_cons_self e rest) h he
            cases hl : List.lookup e.timerId timers with
            | some d =>
                have ih2 := ih
                  (pushEntry ⟨max (e.time + d) now, e.timerId⟩ rest) ?_
                · simp [pollAux, he, hl, List.count_cons, hid, ih2]
                · intro g hg hgid
                  rcases mem_pushEntry.mp hg with rfl | hgr
                  · exact absurd hgid hid
                  · exact hq g (List.mem_cons_of_mem _ hgr) hgid
            | none =>
                have ih2 := ih rest
                  (fun g hg hgid => hq g (List.mem_cons_of_mem _ hg) hgid)
                simp [pollAux, he, hl, ih2]
          · simp [pollAux, he]

/-- Helper for C3: an entry not due before `now` survives the pass
untouched. -/
theorem pollAux_preserves_not_due (timers : List (Nat × Nat)) (now : Nat) :
    ∀ (fuel : Nat) (queue : List QueueEntry) (f : QueueEntry),
      f ∈ queue → ¬ f.time < now →
      f ∈ (pollAux timers now fuel queue).2 := by
  intro fuel
  induction fuel with
  | zero => intro queue f hf _; simpa [pollAux] using hf
  | succ fuel ih =>
      intro queue f hf hnot
      cases queue with
      | nil => cases hf
      | cons e rest =>
          by_cases he : e.time < now
          · have hfr : f ∈ rest := by
              rcases List.mem_cons.mp hf with rfl | h
              · exact absurd he hnot
              · exact h
            cases hl : List.lookup e.timerId timers with
            | some d =>
                have ih2 := ih
                  (pushEntry ⟨max (e.time + d) now, e.timerId⟩ rest) f
                  (mem_pushEntry.mpr (Or.inr hfr)) hnot
                simpa [pollAux, he, hl] using ih2
            | none =>
                have ih2 := ih rest f hfr hnot
                simpa [pollAux, he, hl] using ih2
          · simpa [pollAux, he] using hf

end Portlight

namespace Portlight

/-- Helper for C3: with a time-sorted queue holding at most one entry per
timer id and enough fuel, a live timer due strictly before `now` fires
exactly once during the pass and is rescheduled at
`max (last_due + duration) now`. -/
theorem pollAux_fires_once (timers : List (Nat × Nat)) (now : Nat) :
    ∀ (fuel : Nat) (queue : List QueueEntry),
      queue.Pairwise (fun a b => a.time ≤ b.time) →
      (queue.map (·.timerId)).Nodup →
      (queue.countP fun e => e.time < now) ≤ fuel →
      ∀ e ∈ queue, e.time < now →
        ∀ d, List.lookup e.timerId timers = some d →
          (pollAux timers now fuel queue).1.count e.timerId = 1 ∧
          (⟨max (e.time + d) now, e.timerId⟩ : QueueEntry) ∈
            (pollAux timers now fuel queue).2 := by
  intro fuel
  induction fuel with
  | zero =>
      intro queue _ _ hcount e he hlt d _
      exfalso
      have hpos : 0 < queue.countP fun e => e.time < now :=
        List.countP_pos_iff.mpr ⟨e, he, by simpa using hlt⟩
      omega
  | succ fuel ih =>
      intro queue hsorted hnodup hcount e he hlt d hd
      cases queue with
      | nil => cases he
      | cons f rest =>
          rw [List.pairwise_cons] at hsorted
          by_cases hf : f.time < now
          · cases hl : List.lookup f.timerId timers with
            | some df =>
                by_cases hid : f.timerId = e.timerId
                · have hef : e = f := by
                    rcases List.mem_cons.mp he with rfl | her
                    · rfl
                    · exfalso
                      have hm : e.timerId ∈ rest.map (·.timerId) :=
                        List.mem_map.mpr ⟨e, her, rfl⟩
                      rw [List.map_cons, List.nodup_cons] at hnodup
                      exact hnodup.1 (hid ▸ hm)
                  subst hef
                  have hdf : df = d := by
                    rw [hd] at hl
                    exact (Option.some.inj hl).symm
                  subst hdf
                  constructor
                  · have hz := pollAux_count_zero timers now e.timerId fuel
                      (pushEntry ⟨max (e.time + df) now, e.timerId⟩ rest) ?_
                    · simp [pollAux, hf, hl, List.count_cons, hz]
                    · intro g hg hgid
                      rcases mem_pushEntry.mp hg with rfl | hgr
                      · exact Nat.not_lt.mpr (Nat.le_max_right _ _)
                      · exfalso
                        have hm : g.timerId ∈ rest.map (·.timerId) :=
                          List.mem_map.mpr ⟨g, hgr, rfl⟩
                        rw [List.map_cons, List.nodup_cons] at hnodup
                        exact hnodup.1 (hgid ▸ hm)
                  · have hmem : (⟨max (e.time + df) now, e.timerId⟩ : QueueEntry) ∈
                        pushEntry ⟨max (e.time + df) now, e.timerId⟩ rest :=
                      mem_pushEntry.mpr (Or.inl rfl)
                    have hkeep := pollAux_preserves_not_due timers now fuel
                      (pushEntry ⟨max (e.time + df) now, e.timerId⟩ rest)
                      ⟨max (e.time + df) now, e.timerId⟩ hmem
                      (Nat.not_lt.mpr (Nat.le_max_right _ _))
                    simpa [pollAux, hf, hl] using hkeep
                · have her : e ∈ rest := by
                    rcases List.mem_cons.mp he with rfl | h
                    · exact absurd rfl hid
                    · exact h
                  have hsorted2 :
                      (pushEntry ⟨max (f.time + df) now, f.timerId⟩ rest).Pairwise
                        (fun a b => a.time ≤ b.time) :=
                    pairwise_pushEntry _ rest hsorted.2
                  have hnodup2 :
                      ((pushEntry ⟨max (f.time + df) now, f.timerId⟩ rest).map
                        (·.timerId)).Nodup := by
                    have hperm :=
                      (perm_pushEntry ⟨max (f.time + df) now, f.timerId⟩ rest).map
                        (·.timerId)
                    rw [hperm.nodup_iff]
                    simpa using hnodup
                  have hcP :
                      ((pushEntry ⟨max (f.time + df) now, f.timerId⟩ rest).countP
                        fun g => g.time < now) =
                        rest.countP fun g => g.time < now := by
                    rw [(perm_pushEntry _ rest).countP_eq]
                    simp [List.countP_cons, Nat.not_lt.mpr (Nat.le_max_right _ _)]
                  have hcrest : (rest.countP fun g => g.time < now) ≤ fuel := by
                    rw [List.countP_cons] at hcount
                    simp [hf] at hcount
                    omega
                  have hrec := ih
                    (pushEntry ⟨max (f.time + df) now, f.timerId⟩ rest)
                    hsorted2 hnodup2 (hcP ▸ hcrest) e
                    (mem_pushEntry.mpr (Or.inr her)) hlt d hd
                  constructor
                  · have hcc := hrec.1
                    simp [pollAux, hf, hl, List.count_cons, hid, hcc]
                  · have hc2 := hrec.2
                    simpa [pollAux, hf, hl] using hc2
            | none =>
                have hid : f.timerId ≠ e.timerId := by
                  intro h
                  rw [h, hd] at hl
                  cases hl
                have her : e ∈ rest := by
                  rcases List.mem_cons.mp he with rfl | h
                  · exact absurd rfl hid
                  · exact h
                have hnodup2 : (rest.map (·.timerId)).Nodup := by
                  rw [List.map_cons, List.nodup_cons] at hnodup
                  exact hnodup.2
                have hcrest : (rest.countP fun g => g.time < now) ≤ fuel := by
                  rw [List.countP_cons] at hcount
                  simp [hf] at hcount
                  omega
                have hrec := ih rest hsorted.2 hnodup2 hcrest e her hlt d hd
                refine ⟨?_, ?_⟩
                · have hcc := hrec.1
                  simpa [pollAux, hf, hl] using hcc
                · have hc2 := hrec.2
                  simpa [pollAux, hf, hl] using hc2
          · exfalso
            rcases List.mem_cons.mp he with rfl | her
            · exact hf hlt
            · exact hf (Nat.lt_of_le_of_lt (hsorted.1 e her) hlt)

end Portlight

/-- C3: in one `Timers::poll` pass with `now` sampled once at entry, over a
time-sorted queue with at most one entry per timer id: an id none of whose
entries is due strictly before `now` is not fired at all (so nothing fires
twice in a pass, and due-exactly-at-`now` does not fire), while a live timer
due strictly before `now` fires exactly once and is rescheduled at
`max (last_due + duration) now` — resetting the phase to `now` when the loop
fell behind by more than one period. -/
theorem timer_poll_fires_due_once (timers : List (Nat × Nat)) (now : Nat)
    (queue : List Portlight.QueueEntry)
    (hsorted : queue.Pairwise (fun a b => a.time ≤ b.time))
    (hnodup : (queue.map (·.timerId)).Nodup) :
    (∀ id : Nat, (∀ e ∈ queue, e.timerId = id → ¬ e.time < now) →
      (Portlight.Timers.poll timers now queue).1.count id = 0) ∧
    (∀ e ∈ queue, e.time < now →
      ∀ d, List.lookup e.timerId timers = some d →
        (Portlight.Timers.poll timers now queue).1.count e.timerId = 1 ∧
        (⟨max (e.time + d) now, e.timerId⟩ : Portlight.QueueEntry) ∈
          (Portlight.Timers.poll timers now queue).2) := by
  constructor
  · intro id h
    exact Portlight.pollAux_count_zero timers now id _ queue h
  · intro e he hlt d hd
    exact Portlight.pollAux_fires_once timers now _ queue hsorted hnodup
      (Nat.le_refl _) e he hlt d hd

/-- Witness for C3 at concrete inputs: timer 0 (period 10, last due 10) whose
consumer stalled for 3.5 periods (`now = 45`) fires exactly once and is
rescheduled at `max (10 + 10) 45 = 45`, i.e. phase reset to `now`; timer 1
(due at 50) does not fire at all. -/
theorem timer_poll_fires_due_once_witness :
    (Portlight.Timers.poll [(0, 10), (1, 7)] 45 [⟨10, 0⟩, ⟨50, 1⟩]).1.count 0
        = 1 ∧
    (⟨45, 0⟩ : Portlight.QueueEntry) ∈
      (Portlight.Timers.poll [(0, 10), (1, 7)] 45 [⟨10, 0⟩, ⟨50, 1⟩]).2 ∧
    (Portlight.Timers.poll [(0, 10), (1, 7)] 45 [⟨10, 0⟩, ⟨50, 1⟩]).1.count 1
        = 0 := by
  have h := timer_poll_fires_due_once [(0, 10), (1, 7)] 45
    [⟨10, 0⟩, ⟨50, 1⟩] (by decide) (by decide)
  have h2 := h.2 ⟨10, 0⟩ (by decide) (by decide) 10 (by decide)
  exact ⟨h2.1, by simpa using h2.2, h.1 1 (by decide)⟩
